import Mathlib

/-!
Verification of the go-jsonrpc2 library (JSON-RPC 2.0 client/server for Go).

This file is a shallow embedding of the library's data model and the
operations relevant to the specification claims: the polymorphic request
identifier (`id.go`), the message/error model and batch wrapper
(`types.go`), the server dispatch and batch collection (`server.go`), and
the client pending-call table (`client.go`).

Machine integers (`int64`) are modelled as `Int` with explicit range
bounds where the source checks them (`strconv.ParseInt` with bit size 64).
Go byte slices holding JSON text are modelled as `List Char` (the source
only ever inspects them at rune granularity on the paths embedded here).
Fallible operations return `Option` or `Except`.
-/

namespace Jsonrpc2

/-- Lowercase hexadecimal digit characters, as used by Go's
`strconv` and `encoding/json` escape sequences (`"0123456789abcdef"`). -/
def hexDigitChar (n : Nat) : Char :=
  if n < 10 then Char.ofNat (48 + n) else Char.ofNat (87 + n)

/-- Value of one hexadecimal digit accepted by `encoding/json`'s `getu4`
(digits, lowercase and uppercase letters). -/
def hexVal (c : Char) : Option Nat :=
  if '0' ≤ c ∧ c ≤ '9' then some (c.toNat - 48)
  else if 'a' ≤ c ∧ c ≤ 'f' then some (c.toNat - 87)
  else if 'A' ≤ c ∧ c ≤ 'F' then some (c.toNat - 55)
  else none

/-- The test `'0' <= c && c <= '9'` from `ID.UnmarshalJSON` (id.go). -/
def isDigitChar (c : Char) : Bool :=
  decide ('0' ≤ c) && decide (c ≤ '9')

/-- Decimal digit value, used by the model of `strconv.ParseInt`. -/
def digitVal (c : Char) : Option Nat :=
  if isDigitChar c then some (c.toNat - 48) else none

/-- JSON whitespace bytes skipped by the decoder after a value. -/
def isJSONSpace (c : Char) : Bool :=
  c = ' ' || c = '\t' || c = '\n' || c = '\r'

/-- Digit loop of Go's `strconv.FormatInt` (base 10), producing digits
most significant first; `fuel` only bounds the recursion (any value
above the digit count leaves the result unchanged). -/
def natDigitsCore (fuel : Nat) (n : Nat) (acc : List Char) : List Char :=
  match fuel with
  | 0 => acc
  | fuel + 1 =>
    if n < 10 then hexDigitChar n :: acc
    else natDigitsCore fuel (n / 10) (hexDigitChar (n % 10) :: acc)

/-- Decimal digits of a natural number, most significant first. -/
def natDigits (n : Nat) : List Char :=
  natDigitsCore (n + 1) n []

/-- Model of Go `strconv.FormatInt(i, 10)`: optional minus sign followed by
the decimal digits of the magnitude. -/
def intRepr (i : Int) : List Char :=
  if i < 0 then '-' :: natDigits (-i).toNat else natDigits i.toNat

/-- Digit-accumulation loop of `strconv.ParseUint` (base 10): consumes the
remaining characters, failing on any non-digit. -/
def parseDigitsAux (acc : Nat) : List Char → Option Nat
  | [] => some acc
  | c :: rest =>
    match digitVal c with
    | some d => parseDigitsAux (acc * 10 + d) rest
    | none => none

/-- `strconv.ParseUint` on a digit string: empty input is an error. -/
def parseDigits : List Char → Option Nat
  | [] => none
  | l => parseDigitsAux 0 l

/-- Model of Go `strconv.ParseInt(s, 10, 64)`: optional sign, decimal
digits, and the signed 64-bit range check (`-2^63 ≤ v ≤ 2^63 - 1`);
any failure (empty, stray character, out of range) is `none`. -/
def parseInt64 (l : List Char) : Option Int :=
  match l with
  | [] => none
  | c :: rest =>
    if c = '+' then
      (parseDigits rest).bind fun n =>
        if n ≤ 9223372036854775807 then some ((n : Int)) else none
    else if c = '-' then
      (parseDigits rest).bind fun n =>
        if n ≤ 9223372036854775808 then some (-(n : Int)) else none
    else
      (parseDigits l).bind fun n =>
        if n ≤ 9223372036854775807 then some ((n : Int)) else none

/-- Escape sequence emitted for one character by the JSON string encoder
(`encoding/json` `appendString` with HTML escaping on, which
`github.com/goccy/go-json`'s `Marshal` reproduces): `"` and `\` get a
backslash; `<`, `>`, `&` become `\u00XX`; control characters below 0x20
become `\n`, `\r`, `\t` or `\u00XX`; U+2028/U+2029 become `\u202X`;
everything else is emitted literally. -/
def escapeJSONChar (c : Char) : List Char :=
  if c = '"' then ['\\', '"']
  else if c = '\\' then ['\\', '\\']
  else if c = '<' ∨ c = '>' ∨ c = '&' then
    ['\\', 'u', '0', '0', hexDigitChar (c.toNat / 16), hexDigitChar (c.toNat % 16)]
  else if c.toNat < 0x20 then
    if c = '\n' then ['\\', 'n']
    else if c = '\r' then ['\\', 'r']
    else if c = '\t' then ['\\', 't']
    else ['\\', 'u', '0', '0', hexDigitChar (c.toNat / 16), hexDigitChar (c.toNat % 16)]
  else if c.toNat = 0x2028 ∨ c.toNat = 0x2029 then
    ['\\', 'u', '2', '0', '2', hexDigitChar (c.toNat % 16)]
  else [c]

/-- Model of `json.Marshal` applied to a Go string: a double-quoted JSON
string literal with every character escaped by `escapeJSONChar`. -/
def jsonQuote (s : String) : List Char :=
  '"' :: s.data.flatMap escapeJSONChar ++ ['"']

/-- Parse the four hex digits of a `\uXXXX` escape (`encoding/json` `getu4`). -/
def parse4Hex (h1 h2 h3 h4 : Char) : Option Nat :=
  match hexVal h1, hexVal h2, hexVal h3, hexVal h4 with
  | some a, some b, some c, some d => some (((a * 16 + b) * 16 + c) * 16 + d)
  | _, _, _, _ => none

/-- Decode one escape sequence of a JSON string literal, given the input
right after the backslash (the escape switch of `encoding/json`'s
`unquoteBytes`): `\" \\ \/ \b \f \n \r \t` and `\uXXXX` are decoded; a
surrogate `\uXXXX` is combined with a following low-surrogate escape, or
becomes U+FFFD when no valid pair follows; anything else is an error.
Returns the decoded character and the remaining input. -/
def parseEscape : List Char → Option (Char × List Char)
  | [] => none
  | e :: rest =>
    if e = '"' ∨ e = '\\' ∨ e = '/' then some (e, rest)
    else if e = 'b' then some (Char.ofNat 0x8, rest)
    else if e = 'f' then some (Char.ofNat 0xc, rest)
    else if e = 'n' then some ('\n', rest)
    else if e = 'r' then some ('\r', rest)
    else if e = 't' then some ('\t', rest)
    else if e = 'u' then
      match rest with
      | h1 :: h2 :: h3 :: h4 :: rest6 =>
        match parse4Hex h1 h2 h3 h4 with
        | none => none
        | some n =>
          if 0xD800 ≤ n ∧ n < 0xE000 then
            match rest6 with
            | '\\' :: 'u' :: g1 :: g2 :: g3 :: g4 :: rest12 =>
              match parse4Hex g1 g2 g3 g4 with
              | some m =>
                if 0xD800 ≤ n ∧ n < 0xDC00 ∧ 0xDC00 ≤ m ∧ m < 0xE000 then
                  some (Char.ofNat (0x10000 + (n - 0xD800) * 0x400 + (m - 0xDC00)), rest12)
                else some (Char.ofNat 0xFFFD, g1 :: g2 :: g3 :: g4 :: rest12)
              | none => some (Char.ofNat 0xFFFD, g1 :: g2 :: g3 :: g4 :: rest12)
            | _ => some (Char.ofNat 0xFFFD, rest6)
          else some (Char.ofNat n, rest6)
      | _ => none
    else none

/-- Body of a JSON string literal after the opening quote, as decoded by
`encoding/json` (`unquoteBytes`): returns the decoded characters and the
input remaining after the closing quote.  Escapes are decoded by
`parseEscape`; a raw control character below 0x20 is an error; the loop
consumes the input left to right. -/
def parseStringBody : List Char → Option (List Char × List Char)
  | [] => none
  | c :: rest =>
    if c = '"' then some ([], rest)
    else if c = '\\' then
      match hE : parseEscape rest with
      | some p => (parseStringBody p.2).map fun q => (p.1 :: q.1, q.2)
      | none => none
    else if c.toNat < 0x20 then none
    else
      (parseStringBody rest).map fun q => (c :: q.1, q.2)
  termination_by l => l.length
  decreasing_by
  · have hlen : p.2.length < rest.length := by
      obtain ⟨d, rem⟩ := p
      cases rest with
      | nil => simp [parseEscape] at hE
      | cons e tail =>
        simp only [parseEscape] at hE
        repeat' split at hE
        all_goals try exact Option.noConfusion hE
        all_goals
          injection hE with h1
          injection h1 with ha hb
          subst hb
          simp only [List.length_cons]
          omega
    simp only [List.length_cons]
    omega
  · simp

/-- Model of `json.Unmarshal` of a JSON string literal into a Go string
(the `data[0] == '"'` branch of `ID.UnmarshalJSON`): an opening quote, a
body, and nothing but whitespace after the closing quote. -/
def jsonUnquote (data : List Char) : Option String :=
  match data with
  | '"' :: rest =>
    match parseStringBody rest with
    | some (content, rem) =>
      if rem.dropWhile (fun c => isJSONSpace c) = [] then some (String.mk content)
      else none
    | none => none
  | _ => none

/-- `ID` from id.go: a JSON-RPC 2.0 request/response identifier.
The Go struct holds two nullable pointers; every accessor checks `i64`
first, then `str`, and treats the both-nil state as the null identifier. -/
structure ID where
  i64 : Option Int
  str : Option String
  deriving DecidableEq, Repr

/-- `Int64ID` from id.go. -/
def Int64ID (i : Int) : ID := { i64 := some i, str := none }

/-- `StringID` from id.go. -/
def StringID (s : String) : ID := { i64 := none, str := some s }

/-- `NullID` from id.go. -/
def NullID : ID := { i64 := none, str := none }

/-- Go `unicode.IsPrint`, as consulted by `strconv.Quote`. It is modelled
exactly on ASCII (printable iff 0x20–0x7E) and on Latin-1 (0xA1–0xFF
except the soft hyphen 0xAD); above 0xFF the full Unicode tables are out
of scope of this embedding and the character is approximated as printable
unless it is a separator/control point the claims could meet
(U+2028/U+2029). No theorem below evaluates this function outside ASCII. -/
def goIsPrint (c : Char) : Bool :=
  if c.toNat < 0x80 then decide (0x20 ≤ c.toNat) && decide (c.toNat ≤ 0x7e)
  else if c.toNat ≤ 0xFF then decide (0xA1 ≤ c.toNat) && !(decide (c.toNat = 0xAD))
  else !(decide (c.toNat = 0x2028)) && !(decide (c.toNat = 0x2029))

/-- Escape sequence emitted for one rune by Go `strconv.Quote`
(`appendEscapedRune` with quote = `"`): quote and backslash get a
backslash; printable runes are literal; `\a \b \f \n \r \t \v` names;
other runes below 0x80 become `\xHH`; other runes below 0x10000 become
`\uXXXX`; the rest become `\UXXXXXXXX`.  Hex is lowercase. -/
def strconvEscapeRune (c : Char) : List Char :=
  if c = '"' ∨ c = '\\' then ['\\', c]
  else if goIsPrint c then [c]
  else if c.toNat = 0x7 then ['\\', 'a']
  else if c.toNat = 0x8 then ['\\', 'b']
  else if c.toNat = 0xc then ['\\', 'f']
  else if c.toNat = 0xa then ['\\', 'n']
  else if c.toNat = 0xd then ['\\', 'r']
  else if c.toNat = 0x9 then ['\\', 't']
  else if c.toNat = 0xb then ['\\', 'v']
  else if c.toNat < 0x20 ∨ c.toNat = 0x7f then
    ['\\', 'x', hexDigitChar (c.toNat / 16), hexDigitChar (c.toNat % 16)]
  else if c.toNat < 0x10000 then
    ['\\', 'u', hexDigitChar (c.toNat / 4096 % 16), hexDigitChar (c.toNat / 256 % 16),
     hexDigitChar (c.toNat / 16 % 16), hexDigitChar (c.toNat % 16)]
  else
    ['\\', 'U'] ++ (List.range 8).reverse.map fun k => hexDigitChar (c.toNat / 16 ^ k % 16)

/-- Model of Go `strconv.Quote`. -/
def strconvQuote (s : String) : List Char :=
  '"' :: s.data.flatMap strconvEscapeRune ++ ['"']

/-- `ID.String` from id.go: `strconv.FormatInt` for the integer variant,
`strconv.Quote` for the string variant, `"null"` otherwise. -/
def ID.toDisplay (id : ID) : List Char :=
  match id.i64 with
  | some i => intRepr i
  | none =>
    match id.str with
    | some s => strconvQuote s
    | none => "null".data

/-- `ID.MarshalJSON` from id.go: `json.Marshal` of the int64 (decimal
digits), of the string (JSON string literal), or the literal `null`. -/
def ID.marshal (id : ID) : List Char :=
  match id.i64 with
  | some i => intRepr i
  | none =>
    match id.str with
    | some s => jsonQuote s
    | none => "null".data

/-- The error produced by `ID.UnmarshalJSON`: `fmt.Errorf` wrapping
`ErrInvalidIDType` together with the offending raw fragment. -/
inductive IDUnmarshalErr where
  | invalidIDType (got : List Char)
  deriving DecidableEq, Repr

/-- `ID.UnmarshalJSON` from id.go: clear both variants; accept `null` or
empty input as the null identifier; if the first byte is `-` or a digit,
try `strconv.ParseInt(s, 10, 64)`; if the first byte is `"`, try
`json.Unmarshal` into the string variant; anything else (including a
parse failure in both attempts) fails with `ErrInvalidIDType`. -/
def unmarshalID (data : List Char) : Except IDUnmarshalErr ID :=
  if data = "null".data ∨ data = [] then
    .ok { i64 := none, str := none }
  else
    match data with
    | [] => .error (.invalidIDType data)
    | c :: _ =>
      match (if c = '-' ∨ isDigitChar c then parseInt64 data else none) with
      | some i => .ok { i64 := some i, str := none }
      | none =>
        match (if c = '"' then jsonUnquote data else none) with
        | some s => .ok { i64 := none, str := some s }
        | none => .error (.invalidIDType data)

deriving instance DecidableEq for Except

/-- `ErrorCode.String` from types.go: named strings for the five reserved
codes, then the guard `-32000 <= e && e <= -32099` for the server-error
band (note the guard as written in the source bounds `e` below by -32000
and above by -32099), and a generic fallback. `fmt.Sprintf("... (%d)", e)`
is modelled by decimal formatting of the code. -/
def errorCodeString (e : Int) : String :=
  if e = -32700 then "Parse error (" ++ String.mk (intRepr (-32700)) ++ ")"
  else if e = -32600 then "Invalid Request (" ++ String.mk (intRepr (-32600)) ++ ")"
  else if e = -32601 then "Method not found (" ++ String.mk (intRepr (-32601)) ++ ")"
  else if e = -32602 then "Invalid params (" ++ String.mk (intRepr (-32602)) ++ ")"
  else if e = -32603 then "Internal error (" ++ String.mk (intRepr (-32603)) ++ ")"
  else if -32000 ≤ e ∧ e ≤ -32099 then "Server error (" ++ String.mk (intRepr e) ++ ")"
  else "Error (" ++ String.mk (intRepr e) ++ ")"

/-- `messageList` from types.go: an ordered message sequence together
with the flag recording whether it was constructed/decoded as a batch. -/
structure messageList (T : Type) where
  IsBatch : Bool
  Messages : List T
  deriving DecidableEq, Repr

/-- `json.Marshal` of a Go slice, with the element encoder supplied by
the caller (the JSON primitives are an external collaborator): a JSON
array of the encoded elements.  (The `nil`-slice/`null` distinction of
`encoding/json` is not modelled; the library only marshals lists it
built itself.) -/
def jsonMarshalSlice {T : Type} (enc : T → List Char) (xs : List T) : List Char :=
  '[' :: (List.intercalate [','] (xs.map enc)) ++ [']']

/-- `messageList.MarshalJSON` from types.go, as written in the source:
when the list holds exactly one message AND the batch flag is set, the
single message is marshaled on its own; otherwise the message slice is
marshaled as a JSON array. -/
def messageList.marshal {T : Type} (enc : T → List Char) (l : messageList T) : List Char :=
  match l.Messages, l.IsBatch with
  | [m], true => enc m
  | ms, _ => jsonMarshalSlice enc ms

/-- `messageList.UnmarshalJSON` from types.go: input whose first byte is
`[` is decoded as a batch (flag set, element-slice decoder `decList`);
any other input is decoded as one message (flag left false). Decoders for
the element types are collaborator parameters (`json.Unmarshal`). -/
def messageList.unmarshal {T : Type}
    (decList : List Char → Option (List T)) (decOne : List Char → Option T)
    (data : List Char) : Option (messageList T) :=
  match data with
  | '[' :: _ => (decList data).map fun ms => { IsBatch := true, Messages := ms }
  | _ => (decOne data).map fun m => { IsBatch := false, Messages := [m] }

/-- A JSON value, standing in for Go `any` in the `Data` field of the
error object. -/
inductive JsonValue where
  | null
  | bool (b : Bool)
  | num (n : Int)
  | str (s : String)
  | arr (xs : List JsonValue)
  | obj (kvs : List (String × JsonValue))

/-- `Error` from types.go: the library's typed JSON-RPC error object
(code, message, optional structured data).  `ErrorCode` is an `int64`,
modelled as `Int` (every code the library uses is tiny). -/
structure ErrorObj where
  Code : Int
  Message : String
  Data : Option JsonValue

/-- `ErrInternalError`'s shape as built in `Server.call`:
`Error{Code: InternalErrorCode, Message: "Internal error"}` (zero `Data`). -/
def internalErrorObj : ErrorObj := { Code := -32603, Message := "Internal error", Data := none }

/-- A Go `error` value as the server sees it: either the library's typed
`Error`, some other leaf error, or a wrapping of another error
(`fmt.Errorf` with `%w`). -/
inductive GoError where
  | typed (e : ErrorObj)
  | plain (msg : String)
  | wrap (msg : String) (inner : GoError)

/-- `errors.As(err, &errRes)` with target type `Error`: walk the unwrap
chain and return the first typed `Error` found, if any. -/
def errorsAsErrorObj : GoError → Option ErrorObj
  | .typed e => some e
  | .plain _ => none
  | .wrap _ inner => errorsAsErrorObj inner

/-- `RawRequest` (= `Request[json.RawMessage]`) from types.go, keeping
the fields `Server.call` inspects. -/
structure RawReq where
  Method : String
  Params : List Char
  ID : Option ID

/-- `Response[*any]` as built by `Server.call`: `Result` is a pointer so
`none` here means the field was left nil (error case) and `some` means
the pointer was set (success case, even to a nil result). -/
structure ServerResp (α : Type) where
  Result : Option α
  Error : Option ErrorObj
  ID : Option ID

/-- `Server.call` from server.go: invoke the handler (here the abstract
dispatch function `serve`, covering `Server.ServeJSONRPC2` and the
registered handler); a request without an ID yields no response; a typed
`Error` found by `errors.As` is placed in the response verbatim; any
other non-nil error becomes `Error{Code: InternalErrorCode, Message:
"Internal error"}`; otherwise the result is embedded. -/
def Server.call {α : Type} (serve : RawReq → α × Option GoError) (r : RawReq) :
    Option (ServerResp α) :=
  let res := serve r
  match r.ID with
  | none => none
  | some rid =>
    match res.2 with
    | some ge =>
      match errorsAsErrorObj ge with
      | some e => some { Result := none, Error := some e, ID := some rid }
      | none => some { Result := none, Error := some internalErrorObj, ID := some rid }
    | none => some { Result := some res.1, Error := none, ID := some rid }

/-- The array of responses written by the batch path of `Server.callAll`
(server.go): one goroutine per message sends `Server.call`'s value on a
channel, and the collection loop receives until it has taken exactly
`len(rs.Messages)` values, appending the non-nil ones, then encodes the
collected slice.  With zero messages nothing is ever sent and the loop
never reaches its break condition, so nothing is written: that case is
`none`.  Arrival order on the channel is scheduler-dependent; this model
lists the kept responses in request order (the claims below only concern
their number). -/
def callAllBatchWrite {α : Type} (serve : RawReq → α × Option GoError)
    (msgs : List RawReq) : Option (List (ServerResp α)) :=
  if msgs.isEmpty then none
  else some (msgs.filterMap (Server.call serve))

/-- The configuration part of `Server` from server.go (`handlers` and the
semaphore channel itself are not needed for the claims; the semaphore's
capacity is `maxConcurrentCalls`). -/
structure ServerConfig where
  maxConcurrentCalls : Nat

/-- `ServerOption` from server.go. -/
def ServerOption : Type := ServerConfig → ServerConfig

/-- `WithMaxConcurrentCalls` from server.go: panics (here `none`) when the
argument is not positive, otherwise overrides the bound. -/
def withMaxConcurrentCalls (m : Int) : Option ServerOption :=
  if m ≤ 0 then none
  else some fun s => { s with maxConcurrentCalls := m.toNat }

/-- `NewServer` from server.go: start from the default bound 100 and
apply each option; the semaphore is then created with capacity
`maxConcurrentCalls`. -/
def newServer (opts : List ServerOption) : ServerConfig :=
  opts.foldl (fun s opt => opt s) { maxConcurrentCalls := 100 }

/-- Observable state of the batch dispatch loop of `Server.callAll` for
one server instance: messages not yet dispatched, dispatches currently
holding a semaphore slot, and completed dispatches. -/
structure DispatchState where
  pending : Nat
  active : Nat
  completed : Nat

/-- One scheduler step of the batch dispatch loop (server.go, `callAll`):
`start` is the loop body `s.semaphore <- struct{}{}` followed by spawning
the dispatch goroutine — it is only enabled while a semaphore slot is
free (`active < cap`, the channel send blocks otherwise); `finish` is a
dispatch goroutine completing (with success or failure — the slot release
is a `defer`, hence unconditional). -/
inductive DispatchStep (cap : Nat) : DispatchState → DispatchState → Prop
  | start (s : DispatchState) :
      0 < s.pending → s.active < cap →
      DispatchStep cap s
        { pending := s.pending - 1, active := s.active + 1, completed := s.completed }
  | finish (success : Bool) (s : DispatchState) :
      0 < s.active →
      DispatchStep cap s
        { pending := s.pending, active := s.active - 1, completed := s.completed + 1 }

/-- Reachability under `DispatchStep` from the state where a batch of `n`
messages has just been decoded and no dispatch has started. -/
inductive DispatchReach (cap : Nat) (n : Nat) : DispatchState → Prop
  | init : DispatchReach cap n { pending := n, active := 0, completed := 0 }
  | step {s t : DispatchState} :
      DispatchReach cap n s → DispatchStep cap s t → DispatchReach cap n t

/-- The part of `Client` state from client.go that the claims inspect:
the key set of the pending-call table `c.ch` (each key maps to a buffered
one-shot channel of capacity 1) and the ID counter `c.nextID`. -/
structure ClientState where
  ch : List Int
  nextID : Int
  deriving DecidableEq, Repr

/-- `Client.makeChan` from client.go: mint the next integer ID, register
a fresh buffered channel under it, and advance the counter. -/
def ClientState.makeChan (c : ClientState) : Int × ClientState :=
  (c.nextID, { ch := c.ch ++ [c.nextID], nextID := c.nextID + 1 })

/-- Result of `Client.Call` as the claims distinguish it. -/
inductive CallRet where
  | writeErr
  | ctxErr
  | response
  deriving DecidableEq, Repr

/-- `Client.Call` from client.go up to and including the
`case <-ctx.Done(): return ctx.Err()` arm of its select loop: `makeChan`,
a successful `req.WriteTo`, then the context is observed cancelled before
any value arrives on the call's channel.  The function returns the minted
ID and the client state after this path; as in the source, this arm
performs no mutation of the pending-call table. -/
def ClientState.callCancelled (c : ClientState) : CallRet × Int × ClientState :=
  let p := c.makeChan
  (CallRet.ctxErr, p.1, p.2)

/-- `Response[json.RawMessage]` as the client decodes it, keeping the
fields `onResponse` inspects. -/
structure ClientResp where
  Result : List Char
  Error : Option ErrorObj
  ID : Option ID

/-- `Client.onResponse` from client.go: ignore responses with a nil or
non-integer ID; under the mutex, if the integer ID is registered, delete
the entry and deliver on the (buffered, capacity-1) channel, then close
it; an unknown ID is dropped.  The function is total: no path panics. -/
def ClientState.onResponse (c : ClientState) (r : ClientResp) : ClientState :=
  match r.ID with
  | none => c
  | some rid =>
    match rid.i64 with
    | none => c
    | some i => if i ∈ c.ch then { c with ch := c.ch.erase i } else c

/-- The int64 variant, when present, is in the signed 64-bit range: the
validity premise of the round-trip law (`Int64ID` receives a Go `int64`).  -/
def ID.int64InRange (id : ID) : Bool :=
  match id.i64 with
  | some i => decide (-9223372036854775808 ≤ i) && decide (i < 9223372036854775808)
  | none => true

/-- Strings over printable ASCII other than the HTML-escaped characters
`<`, `>`, `&`: on these, `strconv.Quote` and the JSON string encoder
agree character for character. -/
def strSafeAscii (s : String) : Bool :=
  s.data.all fun c =>
    decide (0x20 ≤ c.toNat) && decide (c.toNat ≤ 0x7e) &&
    !(decide (c = '<')) && !(decide (c = '>')) && !(decide (c = '&'))


/-! ### Lemmas about decimal formatting and parsing -/

/-- Recursive specification of `natDigits`, convenient for induction. -/
def natDigitsSpec (n : Nat) : List Char :=
  if _h : n < 10 then [hexDigitChar n]
  else natDigitsSpec (n / 10) ++ [hexDigitChar (n % 10)]
  decreasing_by exact Nat.div_lt_self (by omega) (by omega)

theorem natDigitsCore_eq_spec (fuel : Nat) :
    ∀ n acc, n < fuel → natDigitsCore fuel n acc = natDigitsSpec n ++ acc := by
  induction fuel with
  | zero => intro n acc h; omega
  | succ f ih =>
    intro n acc h
    rw [natDigitsCore, natDigitsSpec]
    by_cases h10 : n < 10
    · simp [h10]
    · have hd : n / 10 < n := Nat.div_lt_self (by omega) (by omega)
      simp only [if_neg h10, dif_neg h10]
      rw [ih (n / 10) _ (by omega), List.append_assoc]
      rfl

theorem natDigits_eq_spec (n : Nat) : natDigits n = natDigitsSpec n := by
  rw [natDigits, natDigitsCore_eq_spec (n + 1) n [] (by omega), List.append_nil]

theorem digitVal_hexDigitChar {d : Nat} (h : d < 10) :
    digitVal (hexDigitChar d) = some d := by
  interval_cases d <;> decide

theorem isDigitChar_hexDigitChar {d : Nat} (h : d < 10) :
    isDigitChar (hexDigitChar d) = true := by
  interval_cases d <;> decide

theorem natDigitsSpec_cons (n : Nat) :
    ∃ c rest, natDigitsSpec n = c :: rest ∧ isDigitChar c = true := by
  induction n using Nat.strong_induction_on with
  | _ n ih =>
    rw [natDigitsSpec]
    by_cases h10 : n < 10
    · exact ⟨hexDigitChar n, [], by simp [h10], isDigitChar_hexDigitChar h10⟩
    · have hd : n / 10 < n := Nat.div_lt_self (by omega) (by omega)
      obtain ⟨c, rest, hc, hdig⟩ := ih (n / 10) hd
      exact ⟨c, rest ++ [hexDigitChar (n % 10)], by simp [h10, hc], hdig⟩

theorem parseDigitsAux_append (xs : List Char) :
    ∀ ys acc, parseDigitsAux acc (xs ++ ys) =
      match parseDigitsAux acc xs with
      | some m => parseDigitsAux m ys
      | none => none := by
  induction xs with
  | nil => intro ys acc; rfl
  | cons c rest ih =>
    intro ys acc
    simp only [List.cons_append, parseDigitsAux]
    cases digitVal c with
    | none => rfl
    | some d => exact ih ys (acc * 10 + d)

theorem parseDigitsAux_natDigitsSpec (n : Nat) :
    ∀ acc, parseDigitsAux acc (natDigitsSpec n) =
      some (acc * 10 ^ (natDigitsSpec n).length + n) := by
  induction n using Nat.strong_induction_on with
  | _ n ih =>
    intro acc
    rw [natDigitsSpec]
    by_cases h10 : n < 10
    · simp only [dif_pos h10, parseDigitsAux, digitVal_hexDigitChar h10]
      simp [parseDigitsAux]
    · have hd : n / 10 < n := Nat.div_lt_self (by omega) (by omega)
      simp only [dif_neg h10]
      rw [parseDigitsAux_append]
      rw [ih (n / 10) hd acc]
      simp only [parseDigitsAux, digitVal_hexDigitChar (Nat.mod_lt n (by omega))]
      simp only [List.length_append, List.length_cons, List.length_nil]
      congr 1
      generalize (natDigitsSpec (n / 10)).length = L
      have hh : n / 10 * 10 + n % 10 = n := by omega
      calc (acc * 10 ^ L + n / 10) * 10 + n % 10
          = acc * (10 ^ L * 10) + (n / 10 * 10 + n % 10) := by ring
        _ = acc * 10 ^ (L + (0 + 1)) + n := by rw [hh, pow_succ]

theorem parseDigits_natDigits (n : Nat) : parseDigits (natDigits n) = some n := by
  rw [natDigits_eq_spec]
  obtain ⟨c, rest, hc, _⟩ := natDigitsSpec_cons n
  rw [hc]
  show parseDigitsAux 0 (c :: rest) = some n
  rw [← hc, parseDigitsAux_natDigitsSpec n 0]
  simp

theorem isDigitChar_not_special {c : Char} (h : isDigitChar c = true) :
    c ≠ '+' ∧ c ≠ '-' ∧ c ≠ '"' ∧ c ≠ 'n' ∧ c ≠ '[' := by
  refine ⟨?_, ?_, ?_, ?_, ?_⟩ <;> (rintro rfl; revert h; decide)

/-- `strconv.ParseInt(FormatInt(i, 10), 10, 64)` recovers `i` whenever `i`
is in the signed 64-bit range. -/
theorem parseInt64_intRepr {i : Int}
    (hlo : -9223372036854775808 ≤ i) (hhi : i < 9223372036854775808) :
    parseInt64 (intRepr i) = some i := by
  rw [intRepr]
  by_cases hneg : i < 0
  · rw [if_pos hneg]
    have hu : parseInt64 ('-' :: natDigits (-i).toNat) =
        (parseDigits (natDigits (-i).toNat)).bind fun n =>
          if n ≤ 9223372036854775808 then some (-(n : Int)) else none := by
      simp [parseInt64]
    rw [hu, parseDigits_natDigits, Option.some_bind]
    have hle : (-i).toNat ≤ 9223372036854775808 := by omega
    rw [if_pos hle]
    congr 1
    omega
  · rw [if_neg hneg]
    obtain ⟨c, rest, hc, hdig⟩ := natDigitsSpec_cons i.toNat
    obtain ⟨hplus, hminus, _, _, _⟩ := isDigitChar_not_special hdig
    have hu : parseInt64 (natDigits i.toNat) =
        (parseDigits (natDigits i.toNat)).bind fun n =>
          if n ≤ 9223372036854775807 then some ((n : Int)) else none := by
      rw [natDigits_eq_spec, hc]
      simp only [parseInt64, if_neg hplus, if_neg hminus]
    rw [hu, parseDigits_natDigits, Option.some_bind]
    have hle : i.toNat ≤ 9223372036854775807 := by omega
    rw [if_pos hle]
    congr 1
    omega

/-- The decimal rendering of an int64 is nonempty, starts with a minus
sign or a digit, and is in particular never `null` nor a quoted string. -/
theorem intRepr_head (i : Int) :
    ∃ c rest, intRepr i = c :: rest ∧ (c = '-' ∨ isDigitChar c = true) := by
  rw [intRepr]
  by_cases hneg : i < 0
  · exact ⟨'-', _, by rw [if_pos hneg], Or.inl rfl⟩
  · obtain ⟨c, rest, hc, hdig⟩ := natDigitsSpec_cons i.toNat
    exact ⟨c, rest, by rw [if_neg hneg, natDigits_eq_spec, hc], Or.inr hdig⟩

/-! ### Round-trip of the JSON string encoder and decoder -/

theorem hexVal_hexDigitChar {k : Nat} (h : k < 16) : hexVal (hexDigitChar k) = some k := by
  interval_cases k <;> decide

theorem parseStringBody_closeQuote (rest : List Char) :
    parseStringBody ('"' :: rest) = some ([], rest) := by
  rw [parseStringBody.eq_def]
  simp

theorem parseStringBody_literal {c : Char} (rest : List Char)
    (h1 : c ≠ '"') (h2 : c ≠ '\\') (h3 : ¬ c.toNat < 0x20) :
    parseStringBody (c :: rest) = (parseStringBody rest).map fun q => (c :: q.1, q.2) := by
  rw [parseStringBody.eq_def]
  simp [h1, h2, h3]

theorem parseStringBody_backslash {tail : List Char} {d : Char} {rem : List Char}
    (h : parseEscape tail = some (d, rem)) :
    parseStringBody ('\\' :: tail) = (parseStringBody rem).map fun q => (d :: q.1, q.2) := by
  rw [parseStringBody.eq_def]
  simp only [show ('\\' = '"') = False by decide, show ('\\' = '\\') = True by decide,
    if_false, if_true]
  split
  · rename_i p hE
    rw [h] at hE
    injection hE with hh
    subst hh
    rfl
  · rename_i hE
    rw [h] at hE
    exact Option.noConfusion hE

theorem parseEscape_u {h1 h2 h3 h4 : Char} {t : Nat} (rest : List Char)
    (hp : parse4Hex h1 h2 h3 h4 = some t) (hs : ¬ (0xD800 ≤ t ∧ t < 0xE000)) :
    parseEscape ('u' :: h1 :: h2 :: h3 :: h4 :: rest) = some (Char.ofNat t, rest) := by
  simp only [parseEscape, hp]
  simp [hs]

theorem parse4Hex_00 {t : Nat} (h : t < 256) :
    parse4Hex '0' '0' (hexDigitChar (t / 16)) (hexDigitChar (t % 16)) = some t := by
  rw [parse4Hex, hexVal_hexDigitChar (by omega), hexVal_hexDigitChar (by omega),
    show hexVal '0' = some 0 from by decide]
  show some _ = some t
  congr 1
  omega

/-- Decoding inverts the JSON string escape of one character. -/
theorem parseStringBody_escapeJSONChar (c : Char) (rest : List Char) :
    parseStringBody (escapeJSONChar c ++ rest) =
      (parseStringBody rest).map fun q => (c :: q.1, q.2) := by
  by_cases hq : c = '"'
  · subst hq
    rw [escapeJSONChar, if_pos rfl]
    exact parseStringBody_backslash (by simp [parseEscape])
  by_cases hb : c = '\\'
  · subst hb
    rw [escapeJSONChar, if_neg (by decide), if_pos rfl]
    exact parseStringBody_backslash (by simp [parseEscape])
  by_cases hh : c = '<' ∨ c = '>' ∨ c = '&'
  · rw [escapeJSONChar, if_neg hq, if_neg hb, if_pos hh]
    rcases hh with rfl | rfl | rfl
    · exact parseStringBody_backslash
        (by rw [show (('<').toNat / 16) = 3 from rfl, show (('<').toNat % 16) = 12 from rfl]
            exact parseEscape_u rest (by decide) (by decide))
    · exact parseStringBody_backslash
        (by rw [show (('>').toNat / 16) = 3 from rfl, show (('>').toNat % 16) = 14 from rfl]
            exact parseEscape_u rest (by decide) (by decide))
    · exact parseStringBody_backslash
        (by rw [show (('&').toNat / 16) = 2 from rfl, show (('&').toNat % 16) = 6 from rfl]
            exact parseEscape_u rest (by decide) (by decide))
  by_cases hc : c.toNat < 0x20
  · rw [escapeJSONChar, if_neg hq, if_neg hb, if_neg hh, if_pos hc]
    by_cases hn : c = '\n'
    · subst hn
      rw [if_pos rfl]
      exact parseStringBody_backslash (by simp [parseEscape])
    by_cases hr : c = '\r'
    · subst hr
      rw [if_neg hn, if_pos rfl]
      exact parseStringBody_backslash (by simp [parseEscape])
    by_cases ht : c = '\t'
    · subst ht
      rw [if_neg hn, if_neg hr, if_pos rfl]
      exact parseStringBody_backslash (by simp [parseEscape])
    · rw [if_neg hn, if_neg hr, if_neg ht]
      have hpe : parseEscape ('u' :: '0' :: '0' :: hexDigitChar (c.toNat / 16) ::
          hexDigitChar (c.toNat % 16) :: rest) = some (Char.ofNat c.toNat, rest) :=
        parseEscape_u rest (parse4Hex_00 (by omega)) (by omega)
      rw [Char.ofNat_toNat] at hpe
      exact parseStringBody_backslash hpe
  by_cases hu : c.toNat = 0x2028 ∨ c.toNat = 0x2029
  · rw [escapeJSONChar, if_neg hq, if_neg hb, if_neg hh, if_neg hc, if_pos hu]
    rcases hu with h28 | h29
    · have hce : c = Char.ofNat 0x2028 := by rw [← h28, Char.ofNat_toNat]
      subst hce
      rw [show hexDigitChar ((Char.ofNat 0x2028).toNat % 16) = '8' from by decide]
      exact parseStringBody_backslash (parseEscape_u rest (by decide) (by decide))
    · have hce : c = Char.ofNat 0x2029 := by rw [← h29, Char.ofNat_toNat]
      subst hce
      rw [show hexDigitChar ((Char.ofNat 0x2029).toNat % 16) = '9' from by decide]
      exact parseStringBody_backslash (parseEscape_u rest (by decide) (by decide))
  · rw [escapeJSONChar, if_neg hq, if_neg hb, if_neg hh, if_neg hc, if_neg hu]
    exact parseStringBody_literal rest hq hb hc

/-- Decoding inverts the JSON string escape of a whole character list. -/
theorem parseStringBody_quote (l : List Char) (rest : List Char) :
    parseStringBody (l.flatMap escapeJSONChar ++ '"' :: rest) = some (l, rest) := by
  induction l with
  | nil =>
    rw [List.flatMap_nil, List.nil_append]
    exact parseStringBody_closeQuote rest
  | cons c tl ih =>
    rw [List.flatMap_cons, List.append_assoc, parseStringBody_escapeJSONChar, ih]
    rfl

/-- `json.Unmarshal(json.Marshal(s), &out)` recovers `s` for every string. -/
theorem jsonUnquote_jsonQuote (s : String) : jsonUnquote (jsonQuote s) = some s := by
  have hsplit : jsonQuote s = '"' :: (s.data.flatMap escapeJSONChar ++ '"' :: []) := rfl
  rw [hsplit, jsonUnquote, parseStringBody_quote]
  cases s
  rfl

/-! ### Behaviour of `ID.UnmarshalJSON` on encoder outputs -/

theorem unmarshalID_cons {c : Char} {rest : List Char}
    (hn : c ≠ 'n') :
    unmarshalID (c :: rest) =
      match (if c = '-' ∨ isDigitChar c then parseInt64 (c :: rest) else none) with
      | some i => .ok { i64 := some i, str := none }
      | none =>
        match (if c = '"' then jsonUnquote (c :: rest) else none) with
        | some s => .ok { i64 := none, str := some s }
        | none => .error (.invalidIDType (c :: rest)) := by
  rw [unmarshalID, if_neg]
  rintro (hnull | hnil)
  · have : c = 'n' := by
      have := congrArg (fun l => l.headD ' ') hnull
      simpa using this
    exact hn this
  · exact List.noConfusion hnil

theorem unmarshalID_intRepr {i : Int}
    (hlo : -9223372036854775808 ≤ i) (hhi : i < 9223372036854775808) :
    unmarshalID (intRepr i) = .ok { i64 := some i, str := none } := by
  obtain ⟨c, rest, hc, hd⟩ := intRepr_head i
  have hne : c ≠ 'n' := by
    rcases hd with rfl | hd
    · decide
    · exact (isDigitChar_not_special hd).2.2.2.1
  have hcond : c = '-' ∨ isDigitChar c := by
    rcases hd with rfl | hd
    · exact Or.inl rfl
    · exact Or.inr hd
  rw [hc, unmarshalID_cons hne, if_pos hcond, ← hc, parseInt64_intRepr hlo hhi]

theorem unmarshalID_jsonQuote (s : String) :
    unmarshalID (jsonQuote s) = .ok { i64 := none, str := some s } := by
  have hq : jsonQuote s = '"' :: (s.data.flatMap escapeJSONChar ++ ['"']) := rfl
  rw [hq, unmarshalID_cons (by decide), if_neg (by decide), if_pos rfl, ← hq,
    jsonUnquote_jsonQuote]

/-! ### Server batch response counting -/

theorem Server.call_isSome {α : Type} (serve : RawReq → α × Option GoError) (r : RawReq) :
    (Server.call serve r).isSome = r.ID.isSome := by
  rw [Server.call]
  split
  · rename_i heq
    rw [heq]
    rfl
  · rename_i rid heq
    rw [heq]
    split
    · split <;> rfl
    · rfl

theorem length_filterMap_call {α : Type} (serve : RawReq → α × Option GoError)
    (msgs : List RawReq) :
    (msgs.filterMap (Server.call serve)).length =
      (msgs.filter fun r => r.ID.isSome).length := by
  induction msgs with
  | nil => rfl
  | cons r tl ih =>
    rw [List.filterMap_cons, List.filter_cons]
    cases hid : r.ID with
    | none =>
      have hcall : Server.call serve r = none := by
        have := Server.call_isSome serve r
        rw [hid] at this
        exact Option.not_isSome_iff_eq_none.mp (by simp [this])
      simp [hcall, hid, ih]
    | some rid =>
      have hcall : (Server.call serve r).isSome = true := by
        rw [Server.call_isSome, hid]; rfl
      obtain ⟨resp, hresp⟩ := Option.isSome_iff_exists.mp hcall
      simp [hresp, hid, ih]

/-! ### Agreement of `strconv.Quote` and the JSON encoder on safe ASCII -/

theorem strconvEscapeRune_eq_escapeJSONChar {c : Char}
    (h1 : 0x20 ≤ c.toNat) (h2 : c.toNat ≤ 0x7e)
    (h3 : c ≠ '<') (h4 : c ≠ '>') (h5 : c ≠ '&') :
    strconvEscapeRune c = escapeJSONChar c := by
  by_cases hq : c = '"'
  · subst hq; rfl
  by_cases hb : c = '\\'
  · subst hb; rfl
  have hprint : goIsPrint c = true := by
    rw [goIsPrint, if_pos (by omega)]
    simp only [Bool.and_eq_true, decide_eq_true_eq]
    omega
  rw [strconvEscapeRune, if_neg (by tauto), if_pos hprint,
    escapeJSONChar, if_neg hq, if_neg hb, if_neg (by tauto),
    if_neg (by omega), if_neg (by omega)]

theorem strconvQuote_eq_jsonQuote {s : String} (h : strSafeAscii s = true) :
    strconvQuote s = jsonQuote s := by
  rw [strconvQuote, jsonQuote]
  have hchars : ∀ c ∈ s.data, strconvEscapeRune c = escapeJSONChar c := by
    intro c hmem
    rw [strSafeAscii, List.all_eq_true] at h
    have hc := h c hmem
    simp only [Bool.and_eq_true, Bool.not_eq_true', decide_eq_true_eq,
      decide_eq_false_iff_not] at hc
    exact strconvEscapeRune_eq_escapeJSONChar hc.1.1.1.1 hc.1.1.1.2 hc.1.1.2 hc.1.2 hc.2
  rw [List.flatMap, List.flatMap, List.map_congr_left hchars]

/-! ### The claims -/

/-- C1: evaluating the cancellation path of `Client.Call` at a concrete
client (empty pending table, counter 0).  `Call` mints ID 0, registers it,
and on context cancellation returns the context's error — but, contrary to
the claim, the pending-call table entry for ID 0 is NOT removed: it is
still registered after `Call` returns (`Call`'s `ctx.Done()` arm performs
no deletion; only `Batch` deregisters on cancellation).  The entry is
removed only when a late server response for ID 0 arrives: `onResponse`
then deletes it and delivers into the abandoned buffered channel, and no
path of `onResponse` panics (it is a total function). -/
theorem claim1_call_cancel_keeps_entry :
    ClientState.callCancelled { ch := [], nextID := 0 } =
      (CallRet.ctxErr, 0, { ch := [0], nextID := 1 }) ∧
    (0 : Int) ∈ ({ ch := [0], nextID := 1 } : ClientState).ch ∧
    ClientState.onResponse { ch := [0], nextID := 1 }
      { Result := [], Error := none, ID := some (Int64ID 0) } =
      { ch := [], nextID := 1 } :=
  ⟨rfl, by decide, by decide⟩

/-- C2: a message list with the batch flag set and exactly one element is
NOT marshaled as a JSON array, contrary to the claim: the condition
`len(l.Messages) == 1 && l.IsBatch` in `messageList.MarshalJSON` makes a
one-element batch marshal as the bare single message, while a one-element
non-batch list marshals as an array.  Evaluated with a Nat element encoder
standing in for the collaborator `json.Marshal`. -/
theorem claim2_single_batch_not_array :
    messageList.marshal (fun n : Nat => (Nat.repr n).data)
      { IsBatch := true, Messages := [5] } = "5".data ∧
    messageList.marshal (fun n : Nat => (Nat.repr n).data)
      { IsBatch := true, Messages := [5] } ≠
      jsonMarshalSlice (fun n : Nat => (Nat.repr n).data) [5] ∧
    messageList.marshal (fun n : Nat => (Nat.repr n).data)
      { IsBatch := false, Messages := [5] } = "[5]".data :=
  ⟨by decide, by decide, by decide⟩

/-- C3: for every nonempty batch, the array written by the server's batch
path contains exactly one `Response` per request that carries an ID,
whatever the dispatch function returns (including errors for the
notifications) and wherever the notifications sit in the batch. -/
theorem claim3_batch_response_count {α : Type} (serve : RawReq → α × Option GoError)
    (msgs : List RawReq) (h : msgs ≠ []) :
    ∃ out, callAllBatchWrite serve msgs = some out ∧
      out.length = (msgs.filter fun r => r.ID.isSome).length := by
  refine ⟨msgs.filterMap (Server.call serve), ?_, length_filterMap_call serve msgs⟩
  rw [callAllBatchWrite, if_neg (by simpa using h)]

/-- Witness for C3: a batch of two calls around one notification, with a
dispatch function that fails on every request, yields exactly two
responses. -/
theorem claim3_witness :
    (([{ Method := "a", Params := [], ID := some (Int64ID 1) },
       { Method := "b", Params := [], ID := none },
       { Method := "c", Params := [], ID := some (Int64ID 2) }] : List RawReq) ≠ []) ∧
    ∃ out,
      callAllBatchWrite (fun _ : RawReq => ((0 : Nat), some (GoError.plain "boom")))
        [{ Method := "a", Params := [], ID := some (Int64ID 1) },
         { Method := "b", Params := [], ID := none },
         { Method := "c", Params := [], ID := some (Int64ID 2) }] = some out ∧
      out.length =
        (([{ Method := "a", Params := [], ID := some (Int64ID 1) },
           { Method := "b", Params := [], ID := none },
           { Method := "c", Params := [], ID := some (Int64ID 2) }] : List RawReq).filter
          fun r => r.ID.isSome).length :=
  ⟨by simp, claim3_batch_response_count _ _ (by simp)⟩

/-- C4: the input `[]` does decode as a batch of length zero (first byte
`[`, so the flag is set and the collaborator list decoder returns the
empty slice), but the server reports nothing for it, contrary to the
claim: `callAll`'s collection loop waits for one channel value per
message, so with zero messages it never reaches its break condition and
nothing — in particular no protocol error — is ever written
(`callAllBatchWrite` is `none`). -/
theorem claim4_empty_batch_no_error_report :
    messageList.unmarshal
      (fun d => if d = ("[]".data) then some ([] : List RawReq) else none)
      (fun _ => none) ("[]".data) = some { IsBatch := true, Messages := [] } ∧
    callAllBatchWrite (fun _ : RawReq => ((0 : Nat), (none : Option GoError))) [] = none :=
  ⟨rfl, rfl⟩

/-- C9: no error code in the reserved band is ever rendered as
`Server error (<code>)`, contrary to the claim: the guard
`-32000 <= e && e <= -32099` in `ErrorCode.String` is unsatisfiable (it
bounds `e` below by -32000 and above by -32099), so band members such as
-32050 — and even the endpoints -32000 and -32099 — fall through to the
generic `Error (<code>)` rendering. -/
theorem claim9_server_error_band_unreachable :
    errorCodeString (-32050) = "Error (-32050)" ∧
    errorCodeString (-32000) = "Error (-32000)" ∧
    errorCodeString (-32099) = "Error (-32099)" :=
  ⟨by decide, by decide, by decide⟩

/-- C5: for every valid identifier (int64 in range, string, or null),
encode → decode → encode is a fixed point of the JSON round trip; and
decoding the fractional number `1.5` fails with the `InvalidIDType`
error instead of truncating. -/
theorem claim5_id_roundtrip (id : ID) (h : id.int64InRange = true) :
    (∃ id2, unmarshalID (ID.marshal id) = .ok id2 ∧
      ID.marshal id2 = ID.marshal id) ∧
    unmarshalID ("1.5".data) = .error (.invalidIDType ("1.5".data)) := by
  constructor
  · rcases id with ⟨i64, str⟩
    cases i64 with
    | some i =>
      simp only [ID.int64InRange, Bool.and_eq_true, decide_eq_true_eq] at h
      exact ⟨{ i64 := some i, str := none },
        by rw [show ID.marshal ⟨some i, str⟩ = intRepr i from rfl,
               unmarshalID_intRepr h.1 h.2],
        rfl⟩
    | none =>
      cases str with
      | some s =>
        exact ⟨{ i64 := none, str := some s },
          by rw [show ID.marshal ⟨none, some s⟩ = jsonQuote s from rfl,
                 unmarshalID_jsonQuote],
          rfl⟩
      | none => exact ⟨NullID, by decide, rfl⟩
  · decide

/-- Witness for C5 at the integer identifier 42. -/
theorem claim5_witness :
    (Int64ID 42).int64InRange = true ∧
    ((∃ id2, unmarshalID (ID.marshal (Int64ID 42)) = .ok id2 ∧
        ID.marshal id2 = ID.marshal (Int64ID 42)) ∧
      unmarshalID ("1.5".data) = .error (.invalidIDType ("1.5".data))) :=
  ⟨by decide, claim5_id_roundtrip (Int64ID 42) (by decide)⟩

/-- C6: for every dispatch of a request that carries an ID and whose
handler returns a non-nil error, the response carries the typed `Error`
verbatim when `errors.As` finds one in the chain, and the opaque
`Error{Code: -32603, Message: "Internal error"}` (no data, nothing from
the original error) otherwise. -/
theorem claim6_handler_error_mapping {α : Type} (serve : RawReq → α × Option GoError)
    (r : RawReq) (rid : ID) (res : α) (ge : GoError)
    (hid : r.ID = some rid) (hs : serve r = (res, some ge)) :
    Server.call serve r =
      some { Result := none,
             Error := some ((errorsAsErrorObj ge).getD internalErrorObj),
             ID := some rid } := by
  rw [Server.call, hid, hs]
  cases hE : errorsAsErrorObj ge <;> simp [hE]

/-- Witness for C6: a handler error wrapping the typed
`Error{Code: 5, Message: "boom"}` is forwarded verbatim. -/
theorem claim6_witness :
    (({ Method := "m", Params := [], ID := some (Int64ID 7) } : RawReq).ID =
        some (Int64ID 7) ∧
      (fun _ : RawReq =>
          ((0 : Nat), some (GoError.wrap "ctx" (GoError.typed ⟨5, "boom", none⟩))))
        { Method := "m", Params := [], ID := some (Int64ID 7) } =
        ((0 : Nat), some (GoError.wrap "ctx" (GoError.typed ⟨5, "boom", none⟩)))) ∧
    Server.call
      (fun _ : RawReq =>
        ((0 : Nat), some (GoError.wrap "ctx" (GoError.typed ⟨5, "boom", none⟩))))
      { Method := "m", Params := [], ID := some (Int64ID 7) } =
      some { Result := none, Error := some ⟨5, "boom", none⟩, ID := some (Int64ID 7) } :=
  ⟨⟨rfl, rfl⟩,
   claim6_handler_error_mapping
     (fun _ : RawReq =>
       ((0 : Nat), some (GoError.wrap "ctx" (GoError.typed ⟨5, "boom", none⟩))))
     { Method := "m", Params := [], ID := some (Int64ID 7) }
     (Int64ID 7) 0 (GoError.wrap "ctx" (GoError.typed ⟨5, "boom", none⟩)) rfl rfl⟩

/-- C7: the default concurrency bound is 100, and in every state the
batch dispatch loop can reach — each dispatch acquiring a semaphore slot
before starting and releasing it unconditionally on completion, success
or failure — the number of concurrently active dispatches never exceeds
the server's configured bound. -/
theorem claim7_concurrency_bound :
    (newServer []).maxConcurrentCalls = 100 ∧
    ∀ (opts : List ServerOption) (n : Nat) (st : DispatchState),
      DispatchReach (newServer opts).maxConcurrentCalls n st →
      st.active ≤ (newServer opts).maxConcurrentCalls := by
  refine ⟨rfl, ?_⟩
  intro opts n st h
  induction h with
  | init => exact Nat.zero_le _
  | step hr hstep ih =>
    cases hstep with
    | start s h1 h2 => exact h2
    | finish success s h1 => simp only; omega

/-- Witness for C7: after dispatching one of two messages on a default
server, one dispatch is active, within the bound. -/
theorem claim7_witness :
    DispatchReach (newServer []).maxConcurrentCalls 2
      { pending := 1, active := 1, completed := 0 } ∧
    ({ pending := 1, active := 1, completed := 0 } : DispatchState).active ≤
      (newServer []).maxConcurrentCalls :=
  have hreach : DispatchReach (newServer []).maxConcurrentCalls 2
      { pending := 1, active := 1, completed := 0 } :=
    DispatchReach.step DispatchReach.init
      (DispatchStep.start { pending := 2, active := 0, completed := 0 }
        (by decide) (by decide))
  ⟨hreach, claim7_concurrency_bound.2 [] 2 _ hreach⟩

/-- C8 counterexample: for the string identifier `"<"`, the display
string (`strconv.Quote`: literal `"<"`) differs from the JSON wire
encoding (HTML-escaped `"<"`), so display and wire form are not
byte-for-byte identical for every identifier. -/
theorem claim8_counterexample :
    ID.toDisplay (StringID "<") ≠ ID.marshal (StringID "<") := by decide

/-- C8 as amended: for every integer or null identifier, and for every
string identifier whose characters are printable ASCII other than `<`,
`>`, `&`, the display string equals the JSON wire encoding byte for
byte. -/
theorem claim8_display_matches_wire (id : ID)
    (h : ∀ s, id.str = some s → strSafeAscii s = true) :
    ID.toDisplay id = ID.marshal id := by
  rcases id with ⟨i64, str⟩
  cases i64 with
  | some i => rfl
  | none =>
    cases str with
    | none => rfl
    | some s =>
      have hs := h s rfl
      show strconvQuote s = jsonQuote s
      exact strconvQuote_eq_jsonQuote hs

/-- Witness for C8 at the string identifier `"hello"`. -/
theorem claim8_witness :
    (∀ s, (StringID "hello").str = some s → strSafeAscii s = true) ∧
    ID.toDisplay (StringID "hello") = ID.marshal (StringID "hello") :=
  ⟨fun s hs => by injection hs with h; rw [← h]; decide,
   claim8_display_matches_wire (StringID "hello")
     (fun s hs => by injection hs with h; rw [← h]; decide)⟩

/-- C10: every input whose first byte is a minus sign or a digit but that
`strconv.ParseInt` rejects (for instance an integer beyond the int64
range) makes `ID.UnmarshalJSON` fail with the `InvalidIDType` error
naming the fragment; the value is not coerced to a string or a smaller
integer. -/
theorem claim10_overflow_id (c : Char) (rest : List Char)
    (hd : c = '-' ∨ isDigitChar c = true) (hp : parseInt64 (c :: rest) = none) :
    unmarshalID (c :: rest) = .error (.invalidIDType (c :: rest)) := by
  have hne : c ≠ 'n' := by
    rcases hd with rfl | hd
    · decide
    · exact (isDigitChar_not_special hd).2.2.2.1
  have hnq : c ≠ '"' := by
    rcases hd with rfl | hd
    · decide
    · exact (isDigitChar_not_special hd).2.2.1
  rw [unmarshalID_cons hne, if_pos (by exact hd), hp, if_neg hnq]

/-- Witness for C10 at the out-of-range literal 9223372036854775808
(2^63, one past the largest int64). -/
theorem claim10_witness :
    (('9' = '-' ∨ isDigitChar '9' = true) ∧
      parseInt64 ('9' :: "223372036854775808".data) = none) ∧
    unmarshalID ('9' :: "223372036854775808".data) =
      .error (.invalidIDType ('9' :: "223372036854775808".data)) :=
  ⟨⟨Or.inr (by decide), by decide⟩,
   claim10_overflow_id '9' ("223372036854775808".data) (Or.inr (by decide)) (by decide)⟩

end Jsonrpc2
